import Mathlib

set_option maxHeartbeats 1000000

/-!
Verification development for the `utils` repository: shallow embeddings of the
Searcher, the Dispatcher state machine, the AsyncInput gateway, the RPC client
status dispatch, the Appserver request parsing, and the Appstorage revisioned
item store, with theorems settling the specified properties against the code.
-/

namespace Spec2Proof

/-! ## Searcher (ordered variant with `order` and `limit`)

Embedding of the `Searcher` class: `updateData` lower-cases every query at
ingest; `search(query, limit)` filters documents whose stored queries contain
the lower-cased needle (or keeps everything when the query is empty), sorts by
`order` ascending and truncates to `limit`.  JS strings are modelled as lists
of characters so that the substring test of `String.prototype.includes` is the
contiguous-sublist relation. -/

namespace SearcherM

/-- A JS string, modelled as its list of characters. -/
abbrev JStr := List Char

/-- JS `String.prototype.toLowerCase`, character-wise. -/
def jsToLower (s : JStr) : JStr := s.map Char.toLower

/-- JS `hay.includes(needle)`: the needle occurs as a contiguous substring. -/
def jsIncludes (hay needle : JStr) : Bool :=
  hay.tails.any fun t => needle.isPrefixOf t

/-- `SearcherData<T>` of the ordered Searcher: lower-cased queries (after
ingest), a sort order and the carried document. -/
structure SearcherData (T : Type) where
  queries : List JStr
  order : Int
  doc : T
deriving DecidableEq

/-- `Searcher.updateData`: store the documents with queries lower-cased. -/
def updateData {T : Type} (data : List (SearcherData T)) : List (SearcherData T) :=
  data.map fun item => { item with queries := item.queries.map jsToLower }

/-- The filter predicate inside `Searcher.search`:
`query === '' || item.queries.some(q => q.includes(query.toLowerCase()))`. -/
def searchPred {T : Type} (query : JStr) (item : SearcherData T) : Bool :=
  query.isEmpty || item.queries.any fun q => jsIncludes q (jsToLower query)

/-- `Searcher.search(query, limit)`: filter, sort ascending by `order`,
truncate to `limit`. -/
def search {T : Type} (data : List (SearcherData T)) (query : JStr) (limit : Nat) :
    List (SearcherData T) :=
  (((data.filter (searchPred query)).mergeSort
    fun a b => decide (a.order ≤ b.order)).take limit)

/-- The executable substring test agrees with the sublist-infix relation. -/
theorem jsIncludes_iff (hay needle : JStr) :
    jsIncludes hay needle = true ↔ needle <:+: hay := by
  simp only [jsIncludes, List.any_eq_true, List.isPrefixOf_iff_prefix,
    List.mem_tails]
  constructor
  · rintro ⟨t, ht, hp⟩
    exact List.infix_iff_prefix_suffix.mpr ⟨t, hp, ht⟩
  · intro h
    obtain ⟨t, hp, ht⟩ := List.infix_iff_prefix_suffix.mp h
    exact ⟨t, ht, hp⟩

end SearcherM

/-- C10: for every ingested document set (queries lower-cased at ingest by
`updateData`), every query string `q`, and every limit no smaller than the
number of documents, a document appears in the result of `search(q, limit)`
if and only if `q` is empty or the lower-cased `q` occurs as a substring of at
least one of the document's (lower-cased) stored queries. -/
theorem searcher_membership {T : Type} [DecidableEq T]
    (docs : List (SearcherM.SearcherData T)) (q : SearcherM.JStr) (limit : Nat)
    (d : SearcherM.SearcherData T) (hlim : docs.length ≤ limit) :
    d ∈ SearcherM.search (SearcherM.updateData docs) q limit ↔
      d ∈ SearcherM.updateData docs ∧
        (q = [] ∨ ∃ s ∈ d.queries,
          SearcherM.jsIncludes s (SearcherM.jsToLower q) = true) := by
  unfold SearcherM.search
  have hlen :
      ((SearcherM.updateData docs).filter (SearcherM.searchPred q)).length ≤ limit := by
    calc ((SearcherM.updateData docs).filter (SearcherM.searchPred q)).length
        ≤ (SearcherM.updateData docs).length := List.length_filter_le _ _
      _ = docs.length := by simp [SearcherM.updateData]
      _ ≤ limit := hlim
  rw [List.take_of_length_le (by rwa [List.length_mergeSort]),
    List.mem_mergeSort, List.mem_filter]
  simp [SearcherM.searchPred, List.isEmpty_iff]

/-- A concrete document list for exercising the Searcher theorems. -/
def searcherDocsW : List (SearcherM.SearcherData Nat) :=
  [⟨[['a', 'B']], 0, 1⟩, ⟨[['z']], 1, 2⟩]

/-- Witness for `searcher_membership` at a concrete document set, query and
limit: the document whose ingested query is "ab" matches the query "A". -/
theorem searcher_membership_witness :
    searcherDocsW.length ≤ 5 ∧
    ((⟨[['a', 'b']], 0, 1⟩ : SearcherM.SearcherData Nat) ∈
        SearcherM.search (SearcherM.updateData searcherDocsW) ['A'] 5 ↔
      (⟨[['a', 'b']], 0, 1⟩ : SearcherM.SearcherData Nat) ∈
          SearcherM.updateData searcherDocsW ∧
        (['A'] = [] ∨ ∃ s ∈ (⟨[['a', 'b']], 0, 1⟩ :
            SearcherM.SearcherData Nat).queries,
          SearcherM.jsIncludes s (SearcherM.jsToLower ['A']) = true)) :=
  ⟨by decide, searcher_membership searcherDocsW ['A'] 5 _ (by decide)⟩

/-! ## Association-list helpers (assoc maps used by the models) -/

/-- Lookup in an association list (first matching key wins). -/
def alookup {κ α : Type} [DecidableEq κ] (l : List (κ × α)) (k : κ) : Option α :=
  match l with
  | [] => none
  | (k₀, v) :: rest => if k₀ = k then some v else alookup rest k

/-- Insert or replace the binding of a key in an association list. -/
def aset {κ α : Type} [DecidableEq κ] (l : List (κ × α)) (k : κ) (v : α) :
    List (κ × α) :=
  match l with
  | [] => [(k, v)]
  | (k₀, v₀) :: rest =>
      if k₀ = k then (k, v) :: rest else (k₀, v₀) :: aset rest k v

theorem alookup_aset_self {κ α : Type} [DecidableEq κ] (l : List (κ × α))
    (k : κ) (v : α) : alookup (aset l k v) k = some v := by
  induction l with
  | nil => simp [aset, alookup]
  | cons h t ih =>
    obtain ⟨k₀, v₀⟩ := h
    by_cases hk : k₀ = k
    · simp [aset, hk, alookup]
    · simp [aset, hk, alookup, ih]

theorem alookup_aset_ne {κ α : Type} [DecidableEq κ] (l : List (κ × α))
    (k k₁ : κ) (v : α) (h : k ≠ k₁) :
    alookup (aset l k v) k₁ = alookup l k₁ := by
  induction l with
  | nil => simp [aset, alookup, h]
  | cons hd t ih =>
    obtain ⟨k₀, v₀⟩ := hd
    by_cases hk : k₀ = k
    · subst hk
      simp [aset, alookup, h]
    · simp [aset, hk, alookup, ih]

/-! ## Dispatcher (debounced cancellable async evaluation)

Operational model of the `Dispatcher` class.  A dispatch performs `reset()`:
it aborts the controller held by the state cell, installs a fresh controller
and synchronously publishes `{loading, progress: 0}`.  The asynchronous tail
of the dispatch sleeps for the debounce interval, then — if its own controller
has been aborted — raises a synthetic `AbortError` through `raise`; otherwise
it invokes `f`.  The updaters `commit` / `raise` / `progress` all go through
`updateState`, which publishes to the state cell only while the dispatch's
local controller is not aborted.

Controllers are identified with the run ids that created them (the initial
controller from the constructor is id `0`).  The model assumes a strictly
positive debounce interval: every run starts asleep and must be woken by the
elapse of its debounce timer before `f` can run. -/

namespace DispatcherM

/-- `DispatcherStatePayload<O>`: loading with progress, success, or error.
For errors only the distinction "synthetic AbortError vs other error" is
retained. -/
inductive DPayload (O : Type) where
  | loading (progress : Int)
  | ok (data : O)
  | fail (isAbortError : Bool)
deriving DecidableEq

/-- Where a dispatch's asynchronous tail currently stands: waiting out the
debounce sleep, executing `f`, or settled. -/
inductive Phase where
  | sleeping
  | running
  | finished
deriving DecidableEq

/-- Book-keeping for one dispatch: the input value it was dispatched for,
its phase, whether `f` was ever invoked for it, and whether `raise` was called
with the synthetic debounce `AbortError`. -/
structure DRun (I O : Type) where
  value : I
  phase : Phase
  fInvoked : Bool
  raisedAbort : Bool
deriving DecidableEq

/-- Events of the interleaved execution: an input change triggering a
dispatch, a debounce timer elapsing, `f` reporting progress, and `f`'s
promise resolving or rejecting. -/
inductive DAction (I O : Type) where
  | dispatch (v : I)
  | wake (r : Nat)
  | progress (r : Nat) (p : Int)
  | resolve (r : Nat) (res : O)
  | reject (r : Nat)
deriving DecidableEq

/-- Global state: id supply, the controller currently held by the state cell,
the set of aborted controllers, the per-run records, the state cell contents,
and the append-only history of publishes to the state cell (tagged with the
run on whose behalf each publish happened). -/
structure DState (I O : Type) where
  nextId : Nat
  current : Nat
  aborted : List Nat
  runs : List (Nat × DRun I O)
  cellController : Nat
  cellPayload : DPayload O
  log : List (Nat × DPayload O)
deriving DecidableEq

variable {I O : Type}

/-- Run record of a given run id, if the run was ever dispatched. -/
def getRun (s : DState I O) (r : Nat) : Option (DRun I O) :=
  alookup s.runs r

/-- Replace a run record. -/
def setRun (s : DState I O) (r : Nat) (run : DRun I O) : DState I O :=
  { s with runs := aset s.runs r run }

/-- `updateState` of `reset()`: publish the payload only if the dispatch's
local controller has not been aborted; the published record keeps the
controller currently held by the cell. -/
def updState (s : DState I O) (r : Nat) (p : DPayload O) : DState I O :=
  if r ∈ s.aborted then s
  else { s with cellPayload := p, log := s.log ++ [(r, p)] }

/-- One step of the interleaved execution. -/
def step (s : DState I O) (a : DAction I O) : DState I O :=
  match a with
  | .dispatch v =>
      { nextId := s.nextId + 1
        current := s.nextId
        aborted := s.current :: s.aborted
        runs := aset s.runs s.nextId ⟨v, .sleeping, false, false⟩
        cellController := s.nextId
        cellPayload := .loading 0
        log := s.log ++ [(s.nextId, .loading 0)] }
  | .wake r =>
      match getRun s r with
      | none => s
      | some run =>
          if run.phase = .sleeping then
            if r ∈ s.aborted then
              updState (setRun s r
                { run with phase := .finished, raisedAbort := true }) r (.fail true)
            else
              setRun s r { run with phase := .running, fInvoked := true }
          else s
  | .progress r p =>
      match getRun s r with
      | none => s
      | some run =>
          if run.phase = .running then updState s r (.loading p) else s
  | .resolve r res =>
      match getRun s r with
      | none => s
      | some run =>
          if run.phase = .running then
            updState (setRun s r { run with phase := .finished }) r (.ok res)
          else s
  | .reject r =>
      match getRun s r with
      | none => s
      | some run =>
          if run.phase = .running then
            updState (setRun s r { run with phase := .finished }) r (.fail false)
          else s

/-- The state right after the constructor ran: controller `0` installed,
loading payload, no dispatch yet. -/
def dinit (I O : Type) : DState I O :=
  ⟨1, 0, [], [], 0, .loading 0, []⟩

/-- Execute a list of actions. -/
def exec (s : DState I O) (as : List (DAction I O)) : DState I O :=
  as.foldl step s

/-- Well-formedness: the cell's controller is allocated, aborted controllers
are allocated, and every allocated controller is either the current one or
aborted. -/
def DInv (s : DState I O) : Prop :=
  s.current < s.nextId ∧ (∀ k ∈ s.aborted, k < s.nextId) ∧
    (∀ k, k < s.nextId → k = s.current ∨ k ∈ s.aborted)

theorem dinv_dinit : DInv (dinit I O) := by
  refine ⟨?_, ?_, ?_⟩
  · simp [dinit]
  · intro k hk
    simp [dinit] at hk
  · intro k hk
    simp [dinit] at hk ⊢
    omega

theorem updState_nextId (s : DState I O) (r : Nat) (p : DPayload O) :
    (updState s r p).nextId = s.nextId := by
  unfold updState
  split <;> rfl

theorem updState_current (s : DState I O) (r : Nat) (p : DPayload O) :
    (updState s r p).current = s.current := by
  unfold updState
  split <;> rfl

theorem updState_aborted (s : DState I O) (r : Nat) (p : DPayload O) :
    (updState s r p).aborted = s.aborted := by
  unfold updState
  split <;> rfl

theorem updState_runs (s : DState I O) (r : Nat) (p : DPayload O) :
    (updState s r p).runs = s.runs := by
  unfold updState
  split <;> rfl

theorem step_shape (s : DState I O) (a : DAction I O) :
    ((step s a).current = s.current ∧ (step s a).nextId = s.nextId ∧
      (step s a).aborted = s.aborted) ∨
    ((step s a).current = s.nextId ∧ (step s a).nextId = s.nextId + 1 ∧
      (step s a).aborted = s.current :: s.aborted) := by
  cases a <;> simp only [step] <;> repeat' split
  all_goals simp [updState_current, updState_nextId, updState_aborted, setRun]

theorem step_nextId_mono (s : DState I O) (a : DAction I O) :
    s.nextId ≤ (step s a).nextId := by
  rcases step_shape s a with ⟨_, h, _⟩ | ⟨_, h, _⟩ <;> omega

theorem step_aborted_mono (s : DState I O) (a : DAction I O) :
    s.aborted ⊆ (step s a).aborted := by
  rcases step_shape s a with ⟨_, _, h⟩ | ⟨_, _, h⟩ <;> rw [h]
  · exact fun k hk => hk
  · exact fun k hk => List.mem_cons_of_mem _ hk

theorem dinv_step (s : DState I O) (a : DAction I O) (h : DInv s) :
    DInv (step s a) := by
  obtain ⟨h1, h2, h3⟩ := h
  rcases step_shape s a with ⟨hc, hn, ha⟩ | ⟨hc, hn, ha⟩ <;>
      rw [DInv, hc, hn, ha]
  · exact ⟨h1, h2, h3⟩
  · refine ⟨by omega, ?_, ?_⟩
    · intro k hk
      rcases List.mem_cons.mp hk with hk | hk
      · omega
      · exact Nat.lt_succ_of_lt (h2 k hk)
    · intro k hk
      rcases Nat.lt_succ_iff_lt_or_eq.mp hk with hk | hk
      · rcases h3 k hk with hk2 | hk2
        · exact Or.inr (List.mem_cons.mpr (Or.inl hk2))
        · exact Or.inr (List.mem_cons.mpr (Or.inr hk2))
      · exact Or.inl hk

theorem step_log_safe (s : DState I O) (a : DAction I O) (hinv : DInv s) (r : Nat)
    (hr : r ∈ s.aborted) :
    ∀ e ∈ (step s a).log.drop s.log.length, e.1 ≠ r := by
  have hlt : r < s.nextId := hinv.2.1 r hr
  cases a <;> simp only [step, updState, setRun] <;> repeat' split
  all_goals intro e he
  all_goals simp only [List.drop_left, List.drop_length, List.mem_singleton,
    List.not_mem_nil] at he
  all_goals subst he
  all_goals try omega
  all_goals rename_i hguard
  all_goals intro hcontra
  all_goals simp only [] at hcontra
  all_goals subst hcontra
  all_goals exact hguard hr

theorem step_shape_log (s : DState I O) (a : DAction I O) :
    ∃ t, (step s a).log = s.log ++ t := by
  cases a <;> simp only [step, updState, setRun] <;> repeat' split
  all_goals first
    | exact ⟨_, rfl⟩
    | exact ⟨[], by simp⟩

theorem exec_log_prefix (as : List (DAction I O)) (s : DState I O) :
    ∃ t, (exec s as).log = s.log ++ t := by
  induction as generalizing s with
  | nil => exact ⟨[], by simp [exec]⟩
  | cons a rest ih =>
      obtain ⟨t2, ht2⟩ := ih (step s a)
      rcases step_shape_log s a with ⟨t1, ht1⟩
      exact ⟨t1 ++ t2, by
        show (exec (step s a) rest).log = s.log ++ (t1 ++ t2)
        rw [ht2, ht1, List.append_assoc]⟩

theorem dinv_exec (as : List (DAction I O)) (s : DState I O) (h : DInv s) :
    DInv (exec s as) := by
  induction as generalizing s with
  | nil => exact h
  | cons a rest ih => exact ih (step s a) (dinv_step s a h)

theorem exec_aborted_mono (as : List (DAction I O)) (s : DState I O) :
    s.aborted ⊆ (exec s as).aborted := by
  induction as generalizing s with
  | nil => exact fun k hk => hk
  | cons a rest ih =>
      exact fun k hk => ih (step s a) (step_aborted_mono s a hk)

theorem exec_nextId_mono (as : List (DAction I O)) (s : DState I O) :
    s.nextId ≤ (exec s as).nextId := by
  induction as generalizing s with
  | nil => exact Nat.le_refl _
  | cons a rest ih =>
      exact Nat.le_trans (step_nextId_mono s a) (ih (step s a))

theorem abort_no_new_log (as : List (DAction I O)) (s : DState I O) (r : Nat)
    (hinv : DInv s) (hr : r ∈ s.aborted) :
    ∀ e ∈ (exec s as).log.drop s.log.length, e.1 ≠ r := by
  induction as generalizing s with
  | nil =>
      intro e he
      rw [exec, List.foldl_nil, List.drop_length] at he
      exact absurd he (List.not_mem_nil e)
  | cons a rest ih =>
      intro e he
      rcases step_shape_log s a with ⟨t1, ht1⟩
      obtain ⟨t2, ht2⟩ := exec_log_prefix rest (step s a)
      have hrw : (exec (step s a) rest).log = s.log ++ (t1 ++ t2) := by
        rw [ht2, ht1, List.append_assoc]
      rw [show exec s (a :: rest) = exec (step s a) rest from rfl, hrw,
        List.drop_left] at he
      rcases List.mem_append.mp he with he1 | he2
      · have := step_log_safe s a hinv r hr e
        rw [ht1, List.drop_left] at this
        exact this he1
      · have ihr := ih (step s a) (dinv_step s a hinv) (step_aborted_mono s a hr) e
        rw [ht2, List.drop_left] at ihr
        exact ihr he2

/-- A run is cancelled: its controller is aborted, and its record shows `f`
was never invoked, with the run either still asleep or settled by the
synthetic `AbortError` raised after the sleep. -/
def Cancelled (s : DState I O) (r : Nat) (v : I) : Prop :=
  r ∈ s.aborted ∧ r < s.nextId ∧
    ∃ run, getRun s r = some run ∧ run.value = v ∧ run.fInvoked = false ∧
      (run.phase = .sleeping ∨ (run.phase = .finished ∧ run.raisedAbort = true))

/-- A cancelled run that has moreover been woken: settled, `f` never invoked,
`raise` called with the synthetic `AbortError`. -/
def CancelledDone (s : DState I O) (r : Nat) (v : I) : Prop :=
  r ∈ s.aborted ∧ r < s.nextId ∧
    ∃ run, getRun s r = some run ∧ run.value = v ∧ run.fInvoked = false ∧
      run.phase = .finished ∧ run.raisedAbort = true

theorem getRun_step_sleeping (s : DState I O) (a : DAction I O) (r : Nat)
    (run0 : DRun I O) (hlt : r < s.nextId) (hwake : a ≠ .wake r)
    (hget : getRun s r = some run0) (hsleep : run0.phase = .sleeping) :
    getRun (step s a) r = some run0 := by
  cases a with
  | dispatch v =>
      show alookup (aset s.runs s.nextId _) r = some run0
      rw [alookup_aset_ne _ _ _ _ (by omega)]
      exact hget
  | wake r2 =>
      by_cases hr2 : r2 = r
      · exact absurd (by rw [hr2]) hwake
      · cases hg : getRun s r2 with
        | none => simp [step, hg, hget]
        | some run2 =>
            simp only [step, hg]
            split
            · split
              · show alookup (updState (setRun s r2 _) r2 _).runs r = some run0
                rw [updState_runs]
                show alookup (aset s.runs r2 _) r = some run0
                rw [alookup_aset_ne _ _ _ _ hr2]
                exact hget
              · show alookup (aset s.runs r2 _) r = some run0
                rw [alookup_aset_ne _ _ _ _ hr2]
                exact hget
            · exact hget
  | progress r2 p =>
      cases hg : getRun s r2 with
      | none => simp [step, hg, hget]
      | some run2 =>
          simp only [step, hg]
          split
          · show alookup (updState s r2 _).runs r = some run0
            rw [updState_runs]
            exact hget
          · exact hget
  | resolve r2 res =>
      by_cases hr2 : r2 = r
      · subst hr2
        simp only [step, hget]
        split
        · rename_i hrun
          rw [hsleep] at hrun
          exact absurd hrun (by simp)
        · exact hget
      · cases hg : getRun s r2 with
        | none => simp [step, hg, hget]
        | some run2 =>
            simp only [step, hg]
            split
            · show alookup ((updState (setRun s r2 _) r2 _)).runs r = some run0
              rw [updState_runs]
              show alookup (aset s.runs r2 _) r = some run0
              rw [alookup_aset_ne _ _ _ _ hr2]
              exact hget
            · exact hget
  | reject r2 =>
      by_cases hr2 : r2 = r
      · subst hr2
        simp only [step, hget]
        split
        · rename_i hrun
          rw [hsleep] at hrun
          exact absurd hrun (by simp)
        · exact hget
      · cases hg : getRun s r2 with
        | none => simp [step, hg, hget]
        | some run2 =>
            simp only [step, hg]
            split
            · show alookup ((updState (setRun s r2 _) r2 _)).runs r = some run0
              rw [updState_runs]
              show alookup (aset s.runs r2 _) r = some run0
              rw [alookup_aset_ne _ _ _ _ hr2]
              exact hget
            · exact hget

theorem getRun_step_finished (s : DState I O) (a : DAction I O) (r : Nat)
    (run0 : DRun I O) (hlt : r < s.nextId)
    (hget : getRun s r = some run0) (hfin : run0.phase = .finished) :
    getRun (step s a) r = some run0 := by
  cases a with
  | dispatch v =>
      show alookup (aset s.runs s.nextId _) r = some run0
      rw [alookup_aset_ne _ _ _ _ (by omega)]
      exact hget
  | wake r2 =>
      by_cases hr2 : r2 = r
      · subst hr2
        simp only [step, hget]
        split
        · rename_i hrun
          rw [hfin] at hrun
          exact absurd hrun (by simp)
        · exact hget
      · cases hg : getRun s r2 with
        | none => simp [step, hg, hget]
        | some run2 =>
            simp only [step, hg]
            split
            · split
              · show alookup (updState (setRun s r2 _) r2 _).runs r = some run0
                rw [updState_runs]
                show alookup (aset s.runs r2 _) r = some run0
                rw [alookup_aset_ne _ _ _ _ hr2]
                exact hget
              · show alookup (aset s.runs r2 _) r = some run0
                rw [alookup_aset_ne _ _ _ _ hr2]
                exact hget
            · exact hget
  | progress r2 p =>
      cases hg : getRun s r2 with
      | none => simp [step, hg, hget]
      | some run2 =>
          simp only [step, hg]
          split
          · show alookup (updState s r2 _).runs r = some run0
            rw [updState_runs]
            exact hget
          · exact hget
  | resolve r2 res =>
      by_cases hr2 : r2 = r
      · subst hr2
        simp only [step, hget]
        split
        · rename_i hrun
          rw [hfin] at hrun
          exact absurd hrun (by simp)
        · exact hget
      · cases hg : getRun s r2 with
        | none => simp [step, hg, hget]
        | some run2 =>
            simp only [step, hg]
            split
            · show alookup ((updState (setRun s r2 _) r2 _)).runs r = some run0
              rw [updState_runs]
              show alookup (aset s.runs r2 _) r = some run0
              rw [alookup_aset_ne _ _ _ _ hr2]
              exact hget
            · exact hget
  | reject r2 =>
      by_cases hr2 : r2 = r
      · subst hr2
        simp only [step, hget]
        split
        · rename_i hrun
          rw [hfin] at hrun
          exact absurd hrun (by simp)
        · exact hget
      · cases hg : getRun s r2 with
        | none => simp [step, hg, hget]
        | some run2 =>
            simp only [step, hg]
            split
            · show alookup ((updState (setRun s r2 _) r2 _)).runs r = some run0
              rw [updState_runs]
              show alookup (aset s.runs r2 _) r = some run0
              rw [alookup_aset_ne _ _ _ _ hr2]
              exact hget
            · exact hget

theorem getRun_wake_aborted (s : DState I O) (r : Nat) (run0 : DRun I O)
    (hab : r ∈ s.aborted) (hget : getRun s r = some run0)
    (hsleep : run0.phase = .sleeping) :
    getRun (step s (.wake r)) r =
      some { run0 with phase := .finished, raisedAbort := true } := by
  simp only [step, hget]
  rw [if_pos hsleep, if_pos hab]
  show alookup (updState (setRun s r _) r _).runs r = some _
  rw [updState_runs]
  show alookup (aset s.runs r _) r = some _
  rw [alookup_aset_self]

theorem cancelled_step (s : DState I O) (a : DAction I O) (r : Nat) (v : I)
    (h : Cancelled s r v) : Cancelled (step s a) r v := by
  obtain ⟨hab, hlt, run0, hget, hval, hf, hph⟩ := h
  refine ⟨step_aborted_mono s a hab,
    Nat.lt_of_lt_of_le hlt (step_nextId_mono s a), ?_⟩
  rcases hph with hsleep | ⟨hfin, hra⟩
  · by_cases hw : a = DAction.wake r
    · subst hw
      exact ⟨_, getRun_wake_aborted s r run0 hab hget hsleep, hval, hf,
        Or.inr ⟨rfl, rfl⟩⟩
    · exact ⟨run0, getRun_step_sleeping s a r run0 hlt hw hget hsleep,
        hval, hf, Or.inl hsleep⟩
  · exact ⟨run0, getRun_step_finished s a r run0 hlt hget hfin,
      hval, hf, Or.inr ⟨hfin, hra⟩⟩

theorem cancelledDone_step (s : DState I O) (a : DAction I O) (r : Nat) (v : I)
    (h : CancelledDone s r v) : CancelledDone (step s a) r v := by
  obtain ⟨hab, hlt, run0, hget, hval, hf, hfin, hra⟩ := h
  exact ⟨step_aborted_mono s a hab,
    Nat.lt_of_lt_of_le hlt (step_nextId_mono s a),
    run0, getRun_step_finished s a r run0 hlt hget hfin, hval, hf, hfin, hra⟩

theorem cancelled_wake (s : DState I O) (r : Nat) (v : I)
    (h : Cancelled s r v) : CancelledDone (step s (.wake r)) r v := by
  obtain ⟨hab, hlt, run0, hget, hval, hf, hph⟩ := h
  refine ⟨step_aborted_mono s _ hab,
    Nat.lt_of_lt_of_le hlt (step_nextId_mono s _), ?_⟩
  rcases hph with hsleep | ⟨hfin, hra⟩
  · exact ⟨_, getRun_wake_aborted s r run0 hab hget hsleep, hval, hf, rfl, rfl⟩
  · exact ⟨run0, getRun_step_finished s (.wake r) r run0 hlt hget hfin,
      hval, hf, hfin, hra⟩

theorem cancelled_exec (as : List (DAction I O)) (s : DState I O) (r : Nat)
    (v : I) (h : Cancelled s r v) : Cancelled (exec s as) r v := by
  induction as generalizing s with
  | nil => exact h
  | cons a rest ih => exact ih (step s a) (cancelled_step s a r v h)

theorem cancelledDone_exec (as : List (DAction I O)) (s : DState I O) (r : Nat)
    (v : I) (h : CancelledDone s r v) : CancelledDone (exec s as) r v := by
  induction as generalizing s with
  | nil => exact h
  | cons a rest ih => exact ih (step s a) (cancelledDone_step s a r v h)

theorem cancelled_exec_wake (as : List (DAction I O)) (s : DState I O)
    (r : Nat) (v : I) (h : Cancelled s r v) (hw : DAction.wake r ∈ as) :
    CancelledDone (exec s as) r v := by
  induction as generalizing s with
  | nil => exact absurd hw (List.not_mem_nil _)
  | cons a rest ih =>
      by_cases ha : a = DAction.wake r
      · subst ha
        exact cancelledDone_exec rest _ r v (cancelled_wake s r v h)
      · rcases List.mem_cons.mp hw with hw1 | hw2
        · exact absurd hw1.symm ha
        · exact ih (step s a) (cancelled_step s a r v h) hw2

theorem sleeping_frozen (as : List (DAction I O)) (s : DState I O) (r : Nat)
    (run0 : DRun I O) (hlt : r < s.nextId) (hget : getRun s r = some run0)
    (hsleep : run0.phase = .sleeping) (hno : DAction.wake r ∉ as) :
    getRun (exec s as) r = some run0 := by
  induction as generalizing s with
  | nil => exact hget
  | cons a rest ih =>
      have ha : a ≠ DAction.wake r := fun hh => hno (hh ▸ List.mem_cons_self _ _)
      exact ih (step s a)
        (Nat.lt_of_lt_of_le hlt (step_nextId_mono s a))
        (getRun_step_sleeping s a r run0 hlt ha hget hsleep)
        (fun hh => hno (List.mem_cons_of_mem _ hh))

end DispatcherM

/-- C2: Dispatcher abort safety — for every dispatch whose cancellation
controller has been aborted (by a later reset), none of its commit, raise or
progress updaters ever publishes a payload to the state cell: every publish
recorded after the abort is tagged with a different run. -/
theorem dispatcher_abort_no_publish {I O : Type}
    (as1 as2 : List (DispatcherM.DAction I O)) (r : Nat)
    (h : r ∈ (DispatcherM.exec (DispatcherM.dinit I O) as1).aborted) :
    ∀ e ∈ (DispatcherM.exec (DispatcherM.dinit I O) (as1 ++ as2)).log.drop
        (DispatcherM.exec (DispatcherM.dinit I O) as1).log.length,
      e.1 ≠ r := by
  have hsplit : DispatcherM.exec (DispatcherM.dinit I O) (as1 ++ as2) =
      DispatcherM.exec (DispatcherM.exec (DispatcherM.dinit I O) as1) as2 := by
    rw [DispatcherM.exec, DispatcherM.exec, DispatcherM.exec, List.foldl_append]
  rw [hsplit]
  exact DispatcherM.abort_no_new_log as2 _ r
    (DispatcherM.dinv_exec as1 _ DispatcherM.dinv_dinit) h

/-- Witness for `dispatcher_abort_no_publish`: run 1 is aborted by the second
dispatch; its later progress, wake and resolve events publish nothing. -/
theorem dispatcher_abort_no_publish_witness :
    (1 ∈ (DispatcherM.exec (DispatcherM.dinit Nat Nat)
        [.dispatch 1, .dispatch 2]).aborted) ∧
    (∀ e ∈ (DispatcherM.exec (DispatcherM.dinit Nat Nat)
        ([.dispatch 1, .dispatch 2] ++
          [.progress 1 5, .wake 1, .resolve 1 7])).log.drop
        (DispatcherM.exec (DispatcherM.dinit Nat Nat)
          [.dispatch 1, .dispatch 2]).log.length,
      e.1 ≠ 1) :=
  ⟨by decide, dispatcher_abort_no_publish [.dispatch 1, .dispatch 2]
    [.progress 1 5, .wake 1, .resolve 1 7] 1 (by decide)⟩

/-- C4: Dispatcher cancellation under debounce — with a strictly positive
debounce interval (runs must be woken before `f` runs), if the input changes
again (a second dispatch) before the pending dispatch's debounce wait elapses
(no wake of that run in between), then `f` is never invoked for the
superseded value, and once the superseded run's debounce wait does elapse the
run stops with the synthetic `AbortError` raised via `raise`. -/
theorem dispatcher_debounce_cancel {I O : Type}
    (as1 as2 as3 : List (DispatcherM.DAction I O)) (v1 v2 : I) (r : Nat)
    (hr : r = (DispatcherM.exec (DispatcherM.dinit I O) as1).nextId)
    (hw : DispatcherM.DAction.wake (I := I) (O := O) r ∉ as2) :
    ∃ run, DispatcherM.getRun (DispatcherM.exec (DispatcherM.dinit I O)
        (as1 ++ [.dispatch v1] ++ as2 ++ [.dispatch v2] ++ as3)) r = some run ∧
      run.value = v1 ∧ run.fInvoked = false ∧
      (DispatcherM.DAction.wake (I := I) (O := O) r ∈ as3 →
        run.phase = .finished ∧ run.raisedAbort = true) := by
  classical
  set s1 := DispatcherM.exec (DispatcherM.dinit I O) as1 with hs1
  have hinv1 : DispatcherM.DInv s1 :=
    DispatcherM.dinv_exec as1 _ DispatcherM.dinv_dinit
  subst hr
  set sD := DispatcherM.step s1 (.dispatch v1) with hsD
  have hgetD : DispatcherM.getRun sD s1.nextId =
      some ⟨v1, .sleeping, false, false⟩ := by
    show alookup (aset s1.runs s1.nextId _) s1.nextId = _
    rw [alookup_aset_self]
  have hltD : s1.nextId < sD.nextId := by
    rw [hsD]
    show s1.nextId < s1.nextId + 1
    omega
  set s2 := DispatcherM.exec sD as2 with hs2
  have hget2 : DispatcherM.getRun s2 s1.nextId =
      some ⟨v1, .sleeping, false, false⟩ :=
    DispatcherM.sleeping_frozen as2 sD s1.nextId _ hltD hgetD rfl hw
  have hlt2 : s1.nextId < s2.nextId :=
    Nat.lt_of_lt_of_le hltD (DispatcherM.exec_nextId_mono as2 sD)
  have hinv2 : DispatcherM.DInv s2 :=
    DispatcherM.dinv_exec as2 sD (DispatcherM.dinv_step s1 _ hinv1)
  set s3 := DispatcherM.step s2 (.dispatch v2) with hs3
  have hab3 : s1.nextId ∈ s3.aborted := by
    have hcases := hinv2.2.2 s1.nextId hlt2
    rw [hs3]
    show s1.nextId ∈ s2.current :: s2.aborted
    rcases hcases with hcur | habm
    · exact List.mem_cons.mpr (Or.inl hcur)
    · exact List.mem_cons.mpr (Or.inr habm)
  have hget3 : DispatcherM.getRun s3 s1.nextId =
      some ⟨v1, .sleeping, false, false⟩ := by
    rw [hs3]
    show alookup (aset s2.runs s2.nextId _) s1.nextId = _
    rw [alookup_aset_ne _ _ _ _ (by omega)]
    exact hget2
  have hlt3 : s1.nextId < s3.nextId := by
    rw [hs3]
    show s1.nextId < s2.nextId + 1
    omega
  have hcanc : DispatcherM.Cancelled s3 s1.nextId v1 :=
    ⟨hab3, hlt3, ⟨v1, .sleeping, false, false⟩, hget3, rfl, rfl, Or.inl rfl⟩
  have hfin : DispatcherM.exec (DispatcherM.dinit I O)
      (as1 ++ [.dispatch v1] ++ as2 ++ [.dispatch v2] ++ as3) =
      DispatcherM.exec s3 as3 := by
    rw [DispatcherM.exec, List.foldl_append, List.foldl_append,
      List.foldl_append, List.foldl_append]
    rfl
  rw [hfin]
  by_cases hw3 : DispatcherM.DAction.wake (I := I) (O := O) s1.nextId ∈ as3
  · obtain ⟨hab, hlt, run, hget, hval, hf, hph, hra⟩ :=
      DispatcherM.cancelled_exec_wake as3 s3 s1.nextId v1 hcanc hw3
    exact ⟨run, hget, hval, hf, fun _ => ⟨hph, hra⟩⟩
  · obtain ⟨hab, hlt, run, hget, hval, hf, hph⟩ :=
      DispatcherM.cancelled_exec as3 s3 s1.nextId v1 hcanc
    exact ⟨run, hget, hval, hf, fun hmem => absurd hmem hw3⟩

/-- Witness for `dispatcher_debounce_cancel`: run 1 (value 10) is superseded
by the dispatch of value 20 before its wake; after its wake it has raised the
synthetic AbortError and `f` was never invoked. -/
theorem dispatcher_debounce_cancel_witness :
    (1 = (DispatcherM.exec (DispatcherM.dinit Nat Nat) []).nextId) ∧
    (DispatcherM.DAction.wake (I := Nat) (O := Nat) 1 ∉
      ([] : List (DispatcherM.DAction Nat Nat))) ∧
    ∃ run, DispatcherM.getRun (DispatcherM.exec (DispatcherM.dinit Nat Nat)
        ([] ++ [.dispatch 10] ++ [] ++ [.dispatch 20] ++ [.wake 1])) 1 =
          some run ∧
      run.value = 10 ∧ run.fInvoked = false ∧
      (DispatcherM.DAction.wake (I := Nat) (O := Nat) 1 ∈
          [DispatcherM.DAction.wake (I := Nat) (O := Nat) 1] →
        run.phase = .finished ∧ run.raisedAbort = true) :=
  ⟨by decide, by decide,
    dispatcher_debounce_cancel [] [] [.wake 1] 10 20 1 (by decide) (by decide)⟩



/-! ## AsyncInput gateway (`useAsyncInput`)

Embedding of the result-processing effect of `useAsyncInput` (the effect on
`[result, value]`): a `null` result is ignored; a result whose `_meta.ts` is
not greater than the external value's `_meta.ts` only clears pending; a
fresher result is forwarded to the external setter and clears pending.  The
`returnedSetValue` callback clones the current config, applies the updater
(using the mutated clone when the updater returns nothing) and stamps the new
meta with `Date.now()`. -/

namespace AsyncInputM

/-- The `_meta` record: the config that produced a value and its timestamp. -/
structure AIMeta (C : Type) where
  config : C
  ts : Int
deriving DecidableEq

/-- An `AsyncInputValue<C, R>`: result data together with its `_meta`. -/
structure AIValue (C R : Type) where
  result : R
  meta : AIMeta C
deriving DecidableEq

variable {C R : Type}

/-- The effect body on a dispatcher result (lines guarding the external
setter): `null` → no setter call, pending untouched; stale (`ts ≤ value ts`)
→ no setter call, pending cleared; fresh → setter called with the result,
pending cleared.  Returns the setter argument (if any) and whether
`setPending false` was called. -/
def onResult (result : Option (AIValue C R)) (value : AIValue C R) :
    Option (AIValue C R) × Bool :=
  match result with
  | none => (none, false)
  | some res =>
      if res.meta.ts ≤ value.meta.ts then (none, true)
      else (some res, true)

/-- Run a sequence of dispatcher results against the external value, which is
updated by each forwarded setter call; returns the final external value and
the list of arguments passed to the external setter. -/
def processAll (value : AIValue C R) (results : List (Option (AIValue C R))) :
    AIValue C R × List (AIValue C R) :=
  match results with
  | [] => (value, [])
  | r :: rest =>
      match onResult r value with
      | (none, _) => processAll value rest
      | (some v, _) =>
          let next := processAll v rest
          (next.1, v :: next.2)

/-- `returnedSetValue`, the setter returned by `useAsyncInput`: clone the
config, apply the updater (an updater is modelled by the final state of the
mutated clone together with its optional return value; the return value wins
when present), and stamp the new meta with the current clock value
(`Date.now()`). -/
def returnedSetValue (meta : AIMeta C) (updater : C → C × Option C)
    (clockNow : Int) : AIMeta C :=
  { config := ((updater meta.config).2).getD (updater meta.config).1
    ts := clockNow }

theorem processAll_ts_mono (value : AIValue C R)
    (results : List (Option (AIValue C R))) :
    List.Chain' (· < ·)
      (value.meta.ts :: (processAll value results).2.map (·.meta.ts)) := by
  induction results generalizing value with
  | nil => simp [processAll]
  | cons r rest ih =>
      match r with
      | none => simpa [processAll, onResult] using ih value
      | some res =>
          by_cases hts : res.meta.ts ≤ value.meta.ts
          · simpa [processAll, onResult, hts] using ih value
          · have hlt : value.meta.ts < res.meta.ts := lt_of_not_le hts
            have := ih res
            simp only [processAll, onResult, if_neg hts, List.map_cons]
            rw [List.chain'_cons]
            exact ⟨hlt, by simpa using ih res⟩

end AsyncInputM

/-- C3: AsyncInput staleness discard — a dispatcher result whose `_meta.ts`
is not strictly greater than the current external `_meta.ts` is not forwarded
to the external setter and only clears pending, and over any sequence of
dispatcher results the timestamps observed on the external setter are
strictly increasing (each also strictly above the initial external
timestamp). -/
theorem asyncinput_staleness {C R : Type} (res value : AsyncInputM.AIValue C R)
    (results : List (Option (AsyncInputM.AIValue C R)))
    (hstale : res.meta.ts ≤ value.meta.ts) :
    AsyncInputM.onResult (some res) value = (none, true) ∧
    List.Chain' (· < ·)
      (value.meta.ts ::
        (AsyncInputM.processAll value results).2.map (·.meta.ts)) :=
  ⟨by simp [AsyncInputM.onResult, hstale],
    AsyncInputM.processAll_ts_mono value results⟩

/-- Witness for `asyncinput_staleness`: a stale result (ts 3 against external
ts 5) is dropped with pending cleared, while the forwarded timestamps of a
mixed result sequence are strictly increasing. -/
theorem asyncinput_staleness_witness :
    ((⟨0, ⟨0, 3⟩⟩ : AsyncInputM.AIValue Nat Nat).meta.ts ≤
      (⟨1, ⟨1, 5⟩⟩ : AsyncInputM.AIValue Nat Nat).meta.ts) ∧
    (AsyncInputM.onResult (some (⟨0, ⟨0, 3⟩⟩ : AsyncInputM.AIValue Nat Nat))
        ⟨1, ⟨1, 5⟩⟩ = (none, true) ∧
      List.Chain' (· < ·)
        ((⟨1, ⟨1, 5⟩⟩ : AsyncInputM.AIValue Nat Nat).meta.ts ::
          (AsyncInputM.processAll (⟨1, ⟨1, 5⟩⟩ : AsyncInputM.AIValue Nat Nat)
            [some ⟨2, ⟨2, 9⟩⟩, some ⟨3, ⟨3, 4⟩⟩,
              some ⟨4, ⟨4, 11⟩⟩]).2.map (·.meta.ts))) :=
  ⟨by decide,
    asyncinput_staleness ⟨0, ⟨0, 3⟩⟩ ⟨1, ⟨1, 5⟩⟩
      [some ⟨2, ⟨2, 9⟩⟩, some ⟨3, ⟨3, 4⟩⟩, some ⟨4, ⟨4, 11⟩⟩] (by decide)⟩

/-- C7 counterexample: the claim says the setter returned by `useAsyncInput`
assigns a timestamp strictly greater than every previously used ts, with a
`max(previous_ts + 1, clock_now)` fallback for a non-monotonic clock.  The
code stamps the bare clock value (`Date.now()`): when the clock has not
advanced past the previous ts (previous ts 5, clock 5), the new ts is 5 —
not strictly greater, and not the claimed fallback value 6. -/
theorem asyncinput_ts_counterexample :
    (AsyncInputM.returnedSetValue (⟨0, 5⟩ : AsyncInputM.AIMeta Nat)
        (fun c => (c, none)) 5).ts = 5 ∧
    ¬ ((AsyncInputM.returnedSetValue (⟨0, 5⟩ : AsyncInputM.AIMeta Nat)
        (fun c => (c, none)) 5).ts >
      (⟨0, 5⟩ : AsyncInputM.AIMeta Nat).ts) ∧
    (AsyncInputM.returnedSetValue (⟨0, 5⟩ : AsyncInputM.AIMeta Nat)
        (fun c => (c, none)) 5).ts ≠ max ((5 : Int) + 1) 5 := by
  refine ⟨rfl, by decide, by decide⟩

/-- C7 as amended: the setter stamps the new meta with the bare clock value,
so the new timestamp is strictly greater than the previous one exactly when
the clock has advanced past it; there is no fallback. -/
theorem asyncinput_ts_clock {C : Type} (meta : AsyncInputM.AIMeta C)
    (updater : C → C × Option C) (clockNow : Int)
    (hclock : meta.ts < clockNow) :
    (AsyncInputM.returnedSetValue meta updater clockNow).ts = clockNow ∧
    meta.ts < (AsyncInputM.returnedSetValue meta updater clockNow).ts :=
  ⟨rfl, hclock⟩

/-- Witness for `asyncinput_ts_clock` with previous ts 5 and clock 7. -/
theorem asyncinput_ts_clock_witness :
    ((⟨0, 5⟩ : AsyncInputM.AIMeta Nat).ts < 7) ∧
    ((AsyncInputM.returnedSetValue (⟨0, 5⟩ : AsyncInputM.AIMeta Nat)
        (fun c => (c, none)) 7).ts = 7 ∧
      (⟨0, 5⟩ : AsyncInputM.AIMeta Nat).ts <
        (AsyncInputM.returnedSetValue (⟨0, 5⟩ : AsyncInputM.AIMeta Nat)
          (fun c => (c, none)) 7).ts) :=
  ⟨by decide, asyncinput_ts_clock ⟨0, 5⟩ (fun c => (c, none)) 7 (by decide)⟩


/-! ## RPC client (`Client.unsafeExec` status dispatch)

Embedding of the `switch (res.status)` in `Client.unsafeExec`, together with
the token snapshot discipline: `testedToken` is read before the request is
sent, and on 401/403 the auth token cell is set to `null` only when its
current value still equals `testedToken`.  There is no 404 case in the
source: 404 falls through to the `default` arm. -/

namespace ClientM

/-- What `unsafeExec` does with a response: return the decoded output, or
throw one of the client error classes. -/
inductive ClientOutcome (O : Type) where
  | success (o : O)
  | permissionDenied
  | validationError
  | serverError (code msg : String)
  | unexpected (status : Nat)
deriving DecidableEq

/-- The status dispatch of `unsafeExec`: given the HTTP status, the decoded
response (as output, or as error code/message for 400/500), the token
snapshotted before the request and the token currently in the cell, return
the outcome and the new content of the auth token cell. -/
def unsafeExecDispatch {O : Type} (status : Nat) (decodedO : O)
    (decodedCode decodedMsg : String)
    (testedToken currentToken : Option String) :
    ClientOutcome O × Option String :=
  if status = 401 ∨ status = 403 then
    (.permissionDenied, if testedToken = currentToken then none else currentToken)
  else if status = 200 then (.success decodedO, currentToken)
  else if status = 422 then (.validationError, currentToken)
  else if status = 400 ∨ status = 500 then
    (.serverError decodedCode decodedMsg, currentToken)
  else (.unexpected status, currentToken)

end ClientM

/-- C5: Client auth invalidation race — on HTTP 401 or 403, `unsafeExec`
throws the permission-denied error, and it nulls the auth token cell only
when the cell still holds the token snapshotted before the request; a token
that changed during the in-flight call is left untouched. -/
theorem client_auth_invalidation {O : Type} (status : Nat) (decodedO : O)
    (code msg : String) (tested current : Option String)
    (h : status = 401 ∨ status = 403) :
    (ClientM.unsafeExecDispatch status decodedO code msg tested current).1 =
      ClientM.ClientOutcome.permissionDenied ∧
    (tested = current →
      (ClientM.unsafeExecDispatch status decodedO code msg tested current).2 =
        none) ∧
    (tested ≠ current →
      (ClientM.unsafeExecDispatch status decodedO code msg tested current).2 =
        current) := by
  refine ⟨?_, ?_, ?_⟩
  · simp [ClientM.unsafeExecDispatch, h]
  · intro ht
    simp [ClientM.unsafeExecDispatch, h, ht]
  · intro ht
    simp [ClientM.unsafeExecDispatch, h, ht]

/-- Witness for `client_auth_invalidation`: a 401 arriving while the token
has moved from "T1" to "T2" leaves the cell at "T2" and still reports
permission denied. -/
theorem client_auth_invalidation_witness :
    ((401 : Nat) = 401 ∨ (401 : Nat) = 403) ∧
    ((ClientM.unsafeExecDispatch 401 (0 : Nat) "c" "m"
        (some "T1") (some "T2")).1 = ClientM.ClientOutcome.permissionDenied ∧
      (some "T1" = some "T2" →
        (ClientM.unsafeExecDispatch 401 (0 : Nat) "c" "m"
          (some "T1") (some "T2")).2 = none) ∧
      (some "T1" ≠ some "T2" →
        (ClientM.unsafeExecDispatch 401 (0 : Nat) "c" "m"
          (some "T1") (some "T2")).2 = some "T2")) :=
  ⟨by decide,
    client_auth_invalidation 401 (0 : Nat) "c" "m" (some "T1") (some "T2")
      (by decide)⟩

/-- C6 counterexample: the claim says a 404 response raises a `NotFound`
error distinct from the generic unexpected-status error.  In the source
there is no 404 arm and no NotFound error class: a 404 falls through to the
`default` arm and produces the generic unexpected-status error. -/
theorem client_404_counterexample :
    (ClientM.unsafeExecDispatch 404 (0 : Nat) "c" "m"
        (some "T") (some "T")).1 = ClientM.ClientOutcome.unexpected 404 := by
  decide

/-- C6 as amended: a 404 response raises the generic unexpected-status error
(`Unexpected server response: 404`); there is no distinct NotFound error and
the token cell is left unchanged. -/
theorem client_404_unexpected {O : Type} (decodedO : O)
    (code msg : String) (tested current : Option String) :
    ClientM.unsafeExecDispatch 404 decodedO code msg tested current =
      (ClientM.ClientOutcome.unexpected 404, current) := by
  simp [ClientM.unsafeExecDispatch]

/-! ## RPC server (`Appserver.parseInput` and the per-request handler)

Embedding of `AppserverError` and of `parseInput` as called by the handler
registered for `POST /exec/<action>`.  The `AppserverError` constructor is
`(code, message, payload = {}, status = 500)`; both `parseInput` throw sites
pass `400` as the third positional argument, so it lands in `payload` and
`status` keeps its default `500`. -/

namespace AppserverM

/-- A fragment of `AppserverData` — enough to show what the error payload
actually holds. -/
inductive AData where
  | emptyObj
  | num (n : Int)
  | str (s : String)
deriving DecidableEq

/-- `AppserverError`: code, message, payload (default the empty object) and
HTTP status (default 500). -/
structure AppserverError where
  code : String
  message : String
  payload : AData := AData.emptyObj
  status : Nat := 500
deriving DecidableEq

/-- The throw site for a wrong Content-Type:
`new AppserverError('REQUEST_INVALID_TYPE_HEADER', '...', 400)` — the third
positional argument is the payload, so the status keeps its default. -/
def invalidTypeHeaderError : AppserverError :=
  { code := "REQUEST_INVALID_TYPE_HEADER"
    message := "Content-Type must be a messagepack (application/vnd.msgpack)"
    payload := AData.num 400 }

/-- The throw site for an undecodable body:
`new AppserverError('REQUEST_INVALID_BODY', '...', 400)` — again the third
positional argument is the payload. -/
def invalidBodyError : AppserverError :=
  { code := "REQUEST_INVALID_BODY"
    message := "Request body is not valid msgpack"
    payload := AData.num 400 }

/-- An incoming request: Content-Type header, the decoded body when msgpack
decoding succeeds (`none` when `decode` throws), and the Authorization
header. -/
structure Request (T : Type) where
  contentType : Option String
  bodyDecodes : Option T
  authHeader : Option String

/-- Bearer-token extraction:
`authHeader?.startsWith('Bearer ') ? authHeader.slice(7) : null`, then
`token ? parseUser(token) : null` (an empty token string is falsy). -/
def resolveUser {U : Type} (authHeader : Option String)
    (parseUser : String → Option U) : Option U :=
  match authHeader with
  | none => none
  | some h =>
      if h.startsWith "Bearer " then
        let token := h.drop 7
        if token = "" then none else parseUser token
      else none

/-- `Appserver.parseInput`: reject a wrong Content-Type, then a body that
fails to decode, then resolve the user from the Authorization header. -/
def parseInput {T U : Type} (req : Request T)
    (parseUser : String → Option U) :
    Except AppserverError (T × Option U) :=
  if req.contentType ≠ some "application/vnd.msgpack" then
    .error invalidTypeHeaderError
  else
    match req.bodyDecodes with
    | none => .error invalidBodyError
    | some d => .ok (d, resolveUser req.authHeader parseUser)

/-- The response body of the registered handler. -/
inductive RespBody (O : Type) where
  | output (o : O)
  | errBody (error code : String) (payload : AData)
  | authRequired
  | validationFailed
deriving DecidableEq

/-- The per-request handler of `register` (auth gate, schema check, handler
invocation, `AppserverError` catch producing `(e.status, {error, code,
payload})`). -/
def handleRequest {T U O : Type} (req : Request T)
    (parseUser : String → Option U) (auth : Bool) (check : T → Bool)
    (handler : T → Option U → O) : Nat × RespBody O :=
  match parseInput req parseUser with
  | .error e => (e.status, .errBody e.message e.code e.payload)
  | .ok (d, user) =>
      if auth && user.isNone then (401, .authRequired)
      else if ¬ check d then (422, .validationFailed)
      else (200, .output (handler d user))

end AppserverM

/-- C1 (code bug): the claim — backed by the spec's error taxonomy — says a
request with a wrong Content-Type, or with a body that fails to decode, gets
HTTP status 400 (REQUEST_INVALID_TYPE_HEADER / REQUEST_INVALID_BODY).  In the
source both throw sites pass `400` as the third positional constructor
argument, which is the `payload` parameter; `status` keeps its default `500`.
Evaluated at the failing inputs, the server responds 500 in both cases, with
the stray `400` sitting in the error payload. -/
theorem server_parse_error_status_bug :
    (AppserverM.handleRequest (U := Unit)
        ⟨some "text/plain", some (0 : Nat), none⟩ (fun _ => none) false
        (fun _ => true) (fun d _ => d)).1 = 500 ∧
    (AppserverM.handleRequest (U := Unit)
        ⟨some "application/vnd.msgpack", (none : Option Nat), none⟩
        (fun _ => none) false (fun _ => true) (fun d _ => d)).1 = 500 ∧
    AppserverM.invalidTypeHeaderError.status = 500 ∧
    AppserverM.invalidTypeHeaderError.payload = AppserverM.AData.num 400 ∧
    AppserverM.invalidBodyError.status = 500 ∧
    AppserverM.invalidBodyError.payload = AppserverM.AData.num 400 := by
  refine ⟨?_, ?_, rfl, rfl, rfl, rfl⟩ <;> decide


/-! ## Appstorage (revisioned items over a key/value persistence layer)

Embedding of `AppstorageItem` (per-item revisioned data with `update`,
`remove`, `flush`, `refresh`) and of the `Appstorage` directory (persistence
scan, item instantiation, index).  `update` bumps `rev` and clears `deleted`;
`remove` bumps `rev`, sets `deleted` and empties the data; `flush` writes the
in-memory record to persistence only when its `rev` is strictly greater than
the persisted one; `refresh` reloads from persistence only when the persisted
`rev` is strictly greater.  An extra `externWrite` operation models another
process writing the persisted slot. -/

namespace AppstorageM

/-- `AppstorageItemData<T>` without the constant key: revision, tombstone
flag and payload. -/
structure ItemData (D : Type) where
  rev : Nat
  deleted : Bool
  data : D
deriving DecidableEq

/-- The two copies of an item's record: the in-memory cell and the persisted
slot. -/
structure ItemState (D : Type) where
  mem : ItemData D
  persisted : ItemData D
deriving DecidableEq

/-- Operations on one item: the two mutators, the flush and refresh ticks,
and a write of the persisted slot by another process. -/
inductive ItemOp (D : Type) where
  | update (d : D)
  | remove (empty : D)
  | flush
  | refresh
  | externWrite (d : ItemData D)
deriving DecidableEq

variable {D : Type}

/-- Apply one item operation, following `AppstorageItem` member by member. -/
def applyOp (s : ItemState D) (op : ItemOp D) : ItemState D :=
  match op with
  | .update d => { s with mem := ⟨s.mem.rev + 1, false, d⟩ }
  | .remove e => { s with mem := ⟨s.mem.rev + 1, true, e⟩ }
  | .flush =>
      if s.persisted.rev < s.mem.rev then { s with persisted := s.mem } else s
  | .refresh =>
      if s.mem.rev < s.persisted.rev then { s with mem := s.persisted } else s
  | .externWrite d => { s with persisted := d }

/-- Apply a sequence of item operations. -/
def applyOps (s : ItemState D) (ops : List (ItemOp D)) : ItemState D :=
  ops.foldl applyOp s

theorem applyOp_mem_rev_mono (s : ItemState D) (op : ItemOp D) :
    s.mem.rev ≤ (applyOp s op).mem.rev := by
  cases op <;> simp only [applyOp] <;> repeat' split
  all_goals simp
  all_goals omega

theorem applyOps_mem_rev_mono (s : ItemState D) (ops : List (ItemOp D)) :
    s.mem.rev ≤ (applyOps s ops).mem.rev := by
  induction ops generalizing s with
  | nil => exact Nat.le_refl _
  | cons op rest ih =>
      exact Nat.le_trans (applyOp_mem_rev_mono s op) (ih (applyOp s op))

end AppstorageM

/-- C8: Appstorage revision monotonicity — across any sequence of item
operations (update, remove, flush, refresh, even external writes to the
persisted slot) the in-memory `rev` never decreases; `update` bumps `rev` and
clears `deleted`; `remove` bumps `rev` and sets `deleted`; `flush` writes to
persistence only when the in-memory `rev` is strictly greater than the
persisted one (after which the persisted record — hence its rev — equals the
in-memory one); `refresh` replaces the in-memory record only when the
persisted `rev` is strictly greater. -/
theorem appstorage_rev_monotone {D : Type} (s : AppstorageM.ItemState D)
    (ops : List (AppstorageM.ItemOp D)) (d e : D) :
    s.mem.rev ≤ (AppstorageM.applyOps s ops).mem.rev ∧
    ((AppstorageM.applyOp s (.update d)).mem.rev = s.mem.rev + 1 ∧
      (AppstorageM.applyOp s (.update d)).mem.deleted = false) ∧
    ((AppstorageM.applyOp s (.remove e)).mem.rev = s.mem.rev + 1 ∧
      (AppstorageM.applyOp s (.remove e)).mem.deleted = true) ∧
    (s.mem.rev ≤ s.persisted.rev → AppstorageM.applyOp s .flush = s) ∧
    (s.persisted.rev < s.mem.rev →
      (AppstorageM.applyOp s .flush).persisted = s.mem ∧
      (AppstorageM.applyOp s .flush).persisted.rev =
        (AppstorageM.applyOp s .flush).mem.rev) ∧
    (s.persisted.rev ≤ s.mem.rev → AppstorageM.applyOp s .refresh = s) ∧
    (s.mem.rev < s.persisted.rev →
      (AppstorageM.applyOp s .refresh).mem = s.persisted) := by
  refine ⟨AppstorageM.applyOps_mem_rev_mono s ops, ⟨rfl, rfl⟩, ⟨rfl, rfl⟩,
    ?_, ?_, ?_, ?_⟩
  · intro h
    simp [AppstorageM.applyOp, Nat.not_lt.mpr h]
  · intro h
    simp [AppstorageM.applyOp, h]
  · intro h
    simp [AppstorageM.applyOp, Nat.not_lt.mpr h]
  · intro h
    simp [AppstorageM.applyOp, h]

/-- Witness for `appstorage_rev_monotone` at a concrete item history:
update, remove, flush, an external write with a higher revision, refresh. -/
theorem appstorage_rev_monotone_witness :
    ((⟨⟨0, false, 7⟩, ⟨0, false, 7⟩⟩ :
        AppstorageM.ItemState Nat).mem.rev ≤
      (AppstorageM.applyOps ⟨⟨0, false, 7⟩, ⟨0, false, 7⟩⟩
        [.update 8, .remove 0, .flush, .externWrite ⟨5, false, 9⟩,
          .refresh]).mem.rev) ∧
    ((AppstorageM.applyOp (⟨⟨0, false, 7⟩, ⟨0, false, 7⟩⟩ :
        AppstorageM.ItemState Nat) (.update 8)).mem.rev = 0 + 1 ∧
      (AppstorageM.applyOp (⟨⟨0, false, 7⟩, ⟨0, false, 7⟩⟩ :
        AppstorageM.ItemState Nat) (.update 8)).mem.deleted = false) ∧
    ((AppstorageM.applyOp (⟨⟨2, false, 7⟩, ⟨0, false, 3⟩⟩ :
        AppstorageM.ItemState Nat) .flush).persisted = ⟨2, false, 7⟩ ∧
      (AppstorageM.applyOp (⟨⟨2, false, 7⟩, ⟨0, false, 3⟩⟩ :
        AppstorageM.ItemState Nat) .flush).persisted.rev =
        (AppstorageM.applyOp (⟨⟨2, false, 7⟩, ⟨0, false, 3⟩⟩ :
          AppstorageM.ItemState Nat) .flush).mem.rev) ∧
    (AppstorageM.applyOp (⟨⟨1, false, 7⟩, ⟨4, false, 9⟩⟩ :
        AppstorageM.ItemState Nat) .refresh).mem = ⟨4, false, 9⟩ := by
  have h := appstorage_rev_monotone
    (⟨⟨0, false, 7⟩, ⟨0, false, 7⟩⟩ : AppstorageM.ItemState Nat)
    [.update 8, .remove 0, .flush, .externWrite ⟨5, false, 9⟩, .refresh] 8 0
  have h2 := appstorage_rev_monotone
    (⟨⟨2, false, 7⟩, ⟨0, false, 3⟩⟩ : AppstorageM.ItemState Nat) [] 8 0
  have h3 := appstorage_rev_monotone
    (⟨⟨1, false, 7⟩, ⟨4, false, 9⟩⟩ : AppstorageM.ItemState Nat) [] 8 0
  exact ⟨h.1, h.2.1, h2.2.2.2.2.1 (by decide), h3.2.2.2.2.2.2 (by decide)⟩


/-! ## Appstorage directory (persistence scan, item instantiation, index)

Store-level model: `persisted` is the slice of the persistence layer under
the instance prefix, `items` holds the in-memory cells of the instantiated
`AppstorageItem` singletons, `index` the keys present in the `index` cell.
`Appstorage.refresh` scans persistence for keys not yet in the index,
instantiates items for them (loading from persistence when the singleton does
not exist yet), drops those whose item data is tombstoned, and appends the
survivors to the index.  Nothing ever removes a key from the index. -/

namespace AppstorageM

/-- The directory state. -/
structure StoreState (D : Type) where
  persisted : List (String × ItemData D)
  items : List (String × ItemData D)
  index : List String
deriving DecidableEq

/-- Directory-level operations: `add`, the two item mutators (through an
indexed item's handle), the background `Appstorage.refresh`, and an item's
background refresh and flush ticks. -/
inductive StoreOp (D : Type) where
  | add (key : String) (d : D)
  | update (key : String) (d : D)
  | remove (key : String) (empty : D)
  | refreshStore
  | refreshItem (key : String)
  | flushItem (key : String)
deriving DecidableEq

variable {D : Type}

/-- `AppstorageItem.get`: reuse the singleton if it exists, else instantiate
it by loading the persisted record. -/
def instantiateItem (s : StoreState D) (k : String) : StoreState D :=
  match alookup s.items k with
  | some _ => s
  | none =>
      match alookup s.persisted k with
      | some pd => { s with items := aset s.items k pd }
      | none => s

/-- The keys found by `listData()` that are not yet in the index. -/
def newKeys (s : StoreState D) : List String :=
  (s.persisted.map (·.1)).filter fun k => decide (k ∉ s.index)

/-- The state after instantiating all newly seen keys. -/
def postInst (s : StoreState D) : StoreState D :=
  (newKeys s).foldl instantiateItem s

/-- The newly seen keys whose item data is not tombstoned
(`.filter(item => !item.ref.data.value.deleted)`). -/
def addedKeys (s : StoreState D) : List String :=
  (newKeys s).filter fun k =>
    match alookup (postInst s).items k with
    | some d => !d.deleted
    | none => false

/-- `Appstorage.refresh`: instantiate the newly seen keys and append the
non-tombstoned ones to the index. -/
def refreshStore (s : StoreState D) : StoreState D :=
  { postInst s with index := (postInst s).index ++ addedKeys s }

/-- Apply one directory operation. -/
def applyStoreOp (s : StoreState D) (op : StoreOp D) : StoreState D :=
  match op with
  | .add k d =>
      match alookup s.persisted k with
      | some _ => s
      | none =>
          refreshStore { s with persisted := aset s.persisted k ⟨0, false, d⟩ }
  | .update k d =>
      match alookup s.items k with
      | some it => { s with items := aset s.items k ⟨it.rev + 1, false, d⟩ }
      | none => s
  | .remove k e =>
      match alookup s.items k with
      | some it => { s with items := aset s.items k ⟨it.rev + 1, true, e⟩ }
      | none => s
  | .refreshStore => refreshStore s
  | .refreshItem k =>
      match alookup s.items k, alookup s.persisted k with
      | some it, some pd =>
          if it.rev < pd.rev then { s with items := aset s.items k pd } else s
      | _, _ => s
  | .flushItem k =>
      match alookup s.items k, alookup s.persisted k with
      | some it, some pd =>
          if pd.rev < it.rev then { s with persisted := aset s.persisted k it }
          else s
      | _, _ => s

/-- Apply a sequence of directory operations. -/
def applyStoreOps (s : StoreState D) (ops : List (StoreOp D)) : StoreState D :=
  ops.foldl applyStoreOp s

theorem instantiateItem_index (s : StoreState D) (k : String) :
    (instantiateItem s k).index = s.index := by
  unfold instantiateItem
  repeat' split
  all_goals rfl

theorem foldl_instantiate_index (ks : List String) (s : StoreState D) :
    (ks.foldl instantiateItem s).index = s.index := by
  induction ks generalizing s with
  | nil => rfl
  | cons k rest ih =>
      rw [List.foldl_cons, ih (instantiateItem s k), instantiateItem_index]

theorem postInst_index (s : StoreState D) : (postInst s).index = s.index :=
  foldl_instantiate_index (newKeys s) s

theorem refreshStore_index (s : StoreState D) :
    (refreshStore s).index = s.index ++ addedKeys s := by
  show (postInst s).index ++ addedKeys s = s.index ++ addedKeys s
  rw [postInst_index]

end AppstorageM

/-- C9 counterexample: the claim says that after any sequence of add, update,
remove and refresh operations, every entry in the index has `deleted = false`.
On the trace `add "k"` then `remove "k"`, the key "k" is still in the index
while its item data is tombstoned: nothing ever removes an indexed key, and
the tombstone filter of `refresh` applies only to keys not yet indexed. -/
theorem appstorage_index_tombstone_counterexample :
    "k" ∈ (AppstorageM.applyStoreOps
        (⟨[], [], []⟩ : AppstorageM.StoreState Nat)
        [.add "k" 0, .remove "k" 0]).index ∧
    alookup (AppstorageM.applyStoreOps
        (⟨[], [], []⟩ : AppstorageM.StoreState Nat)
        [.add "k" 0, .remove "k" 0]).items "k" = some ⟨1, true, 0⟩ := by
  decide

/-- C9 as amended: tombstoned items are excluded from the index only at
insertion time — a refresh adds to the index only keys whose freshly
instantiated item data has `deleted = false` — and no operation ever removes
a key from the index, so an item tombstoned after being indexed remains in
the index.  The two parts are quantified independently: the first holds for
every state, operation and indexed key; the second for every state and every
key newly indexed by a refresh. -/
theorem appstorage_index_insertion_filter {D : Type} :
    (∀ (s : AppstorageM.StoreState D) (op : AppstorageM.StoreOp D)
        (k : String), k ∈ s.index → k ∈ (AppstorageM.applyStoreOp s op).index) ∧
    (∀ (s : AppstorageM.StoreState D) (k : String),
      k ∈ (AppstorageM.refreshStore s).index → k ∉ s.index →
        ∃ d, alookup (AppstorageM.refreshStore s).items k = some d ∧
          d.deleted = false) := by
  constructor
  · intro s op k hk
    cases op with
    | add k2 d =>
        simp only [AppstorageM.applyStoreOp]
        split
        · exact hk
        · rw [AppstorageM.refreshStore_index]
          exact List.mem_append.mpr (Or.inl hk)
    | update k2 d =>
        simp only [AppstorageM.applyStoreOp]
        split <;> exact hk
    | remove k2 e =>
        simp only [AppstorageM.applyStoreOp]
        split <;> exact hk
    | refreshStore =>
        rw [show AppstorageM.applyStoreOp s .refreshStore =
          AppstorageM.refreshStore s from rfl, AppstorageM.refreshStore_index]
        exact List.mem_append.mpr (Or.inl hk)
    | refreshItem k2 =>
        simp only [AppstorageM.applyStoreOp]
        repeat' split
        all_goals exact hk
    | flushItem k2 =>
        simp only [AppstorageM.applyStoreOp]
        repeat' split
        all_goals exact hk
  · intro s k hmem hnot
    rw [AppstorageM.refreshStore_index] at hmem
    rcases List.mem_append.mp hmem with hin | hadd
    · exact absurd hin hnot
    · obtain ⟨hnk, hpred⟩ := List.mem_filter.mp hadd
      cases halo : alookup (AppstorageM.postInst s).items k with
      | none => rw [halo] at hpred; exact absurd hpred (by simp)
      | some d =>
          rw [halo] at hpred
          refine ⟨d, halo, ?_⟩
          simpa using hpred

/-- Witness for `appstorage_index_insertion_filter`, exercising both parts
non-vacuously: an indexed key whose item is already tombstoned survives a
refresh (part 1 at a state with "k" in the index), and a key freshly
persisted and not yet indexed is indexed by refresh with non-tombstoned data
(part 2, hypotheses discharged concretely). -/
theorem appstorage_index_insertion_filter_witness :
    ("k" ∈ (⟨[("k", ⟨0, false, 0⟩)], [("k", ⟨1, true, 0⟩)], ["k"]⟩ :
        AppstorageM.StoreState Nat).index ∧
      "k" ∈ (AppstorageM.applyStoreOp
        (⟨[("k", ⟨0, false, 0⟩)], [("k", ⟨1, true, 0⟩)], ["k"]⟩ :
          AppstorageM.StoreState Nat) .refreshStore).index) ∧
    ("k" ∈ (AppstorageM.refreshStore
        (⟨[("k", ⟨0, false, 0⟩)], [], []⟩ :
          AppstorageM.StoreState Nat)).index ∧
      "k" ∉ (⟨[("k", ⟨0, false, 0⟩)], [], []⟩ :
        AppstorageM.StoreState Nat).index ∧
      ∃ d, alookup (AppstorageM.refreshStore
          (⟨[("k", ⟨0, false, 0⟩)], [], []⟩ :
            AppstorageM.StoreState Nat)).items "k" = some d ∧
        d.deleted = false) :=
  ⟨⟨by decide,
    (appstorage_index_insertion_filter (D := Nat)).1
      (⟨[("k", ⟨0, false, 0⟩)], [("k", ⟨1, true, 0⟩)], ["k"]⟩ :
        AppstorageM.StoreState Nat) .refreshStore "k" (by decide)⟩,
  ⟨by decide, by decide,
    (appstorage_index_insertion_filter (D := Nat)).2
      (⟨[("k", ⟨0, false, 0⟩)], [], []⟩ : AppstorageM.StoreState Nat) "k"
      (by decide) (by decide)⟩⟩

end Spec2Proof
